import Mathlib

/-!
Verification development for the gpui-editor text engine.

The rope (`ropey::Rope`) is modelled as the list of its Unicode scalar
values (`List Char`); all offsets are character offsets, matching the
source's use of character indexing for every public buffer operation.
Rust `usize` arithmetic on offsets never overflows at the sizes involved,
so `Nat` is used; `Instant`/`Duration` timestamps are modelled as `Nat`
milliseconds (only differences and comparisons are used by the source,
and `saturating_duration_since` matches truncated `Nat` subtraction).
-/

set_option maxHeartbeats 1000000

namespace GpuiEditor

/-- `Rope::len_lines`: one more than the number of newline characters
(a rope always has at least one line, even when empty). -/
def lenLines (cs : List Char) : Nat := 1 + cs.count '\n'

/-- `Rope::line_to_char`: character offset of the start of line `i`, i.e.
the position just after the `i`-th `'\n'`.  For `i ≥ lenLines cs` this
model clamps to the rope length; ropey accepts `i = len_lines` (returning
`len_chars`) and panics above that, which the buffer code never does
because every call is guarded by `line_idx < len_lines`. -/
def lineToChar : List Char → Nat → Nat
  | _, 0 => 0
  | [], _ + 1 => 0
  | c :: cs, i + 1 =>
    if c = '\n' then 1 + lineToChar cs i else 1 + lineToChar cs (i + 1)

/-- `Rope::char_to_line`: the index of the line containing character
`char_idx`, i.e. the number of newlines strictly before it.  Ropey
panics when `char_idx > len_chars`; the panic is modelled as `none`. -/
def charToLine (cs : List Char) (char_idx : Nat) : Option Nat :=
  if char_idx ≤ cs.length then some ((cs.take char_idx).count '\n') else none

/-- `Rope::line_to_char` with ropey's documented panic (`none`) for
`line_idx > len_lines`. -/
def lineToCharChecked (cs : List Char) (line_idx : Nat) : Option Nat :=
  if line_idx ≤ lenLines cs then some (lineToChar cs line_idx) else none

/-- `TextBuffer::line_range`: half-open character range of line `line_idx`,
including the trailing newline except for the final line. -/
def line_range (cs : List Char) (line_idx : Nat) : Option (Nat × Nat) :=
  if line_idx < lenLines cs then
    some (lineToChar cs line_idx,
          if line_idx + 1 < lenLines cs then lineToChar cs (line_idx + 1) else cs.length)
  else
    none

/-- Strip one trailing `'\n'` and, if then present, one trailing `'\r'`
(the slow path of `TextBuffer::line_content`; the borrowed fast path only
fires when the line ends in neither, where stripping is the identity). -/
def stripNewline (l : List Char) : List Char :=
  if l.getLast? = some '\n' then
    let l' := l.dropLast
    if l'.getLast? = some '\r' then l'.dropLast else l'
  else l

/-- `TextBuffer::line_content`: the text of line `line_idx` without the
trailing line terminator, `none` when the line does not exist. -/
def line_content (cs : List Char) (line_idx : Nat) : Option (List Char) :=
  if line_idx < lenLines cs then
    let e := if line_idx + 1 < lenLines cs then lineToChar cs (line_idx + 1) else cs.length
    some (stripNewline ((cs.take e).drop (lineToChar cs line_idx)))
  else
    none

/-- `TextBuffer::slice_to_string` on a half-open character range. -/
def slice_to_string (cs : List Char) (r : Nat × Nat) : List Char :=
  (cs.take r.2).drop r.1

/-- `Rope::insert` (in-bounds usage; ropey panics above `len_chars`,
which the transaction layer never does for the inputs considered here). -/
def ropeInsert (cs : List Char) (offset : Nat) (t : List Char) : List Char :=
  cs.take offset ++ t ++ cs.drop offset

/-- `Rope::remove` on a half-open character range (in-bounds usage). -/
def ropeRemove (cs : List Char) (r : Nat × Nat) : List Char :=
  cs.take r.1 ++ cs.drop r.2

/-- UTF-8 byte length of a string, as Rust's `String::len` computes it. -/
def utf8Len (s : List Char) : Nat := (s.map Char.utf8Size).sum

/-- `TextOperation { range, before, after }`: `range` is a half-open
character range; `before`/`after` are the removed/inserted text. -/
structure TextOperation where
  range : Nat × Nat
  before : List Char
  after : List Char
deriving DecidableEq

/-- `TextOperation::undo`: the inverted operation.  Note that the Rust
source computes the new range end as `range.start + self.after.len()`,
and `String::len` is the **byte** length of the UTF-8 text, even though
every range in the buffer is interpreted in character offsets. -/
def TextOperation.undo (op : TextOperation) : TextOperation :=
  { range := (op.range.1, op.range.1 + utf8Len op.after)
    before := op.after
    after := op.before }

/-- `Transaction { id, timestamp, operations }`. -/
structure Transaction where
  id : Nat
  timestamp : Nat
  operations : List TextOperation
deriving DecidableEq

/-- `TextBuffer`.  The undo and redo stacks are `VecDeque`s used only via
`push_back`/`pop_back`/`back_mut`; they are modelled as lists whose HEAD
is the deque's back (most recent transaction first). -/
structure TextBuffer where
  text : List Char
  next_transaction_id : Nat
  undo_stack : List Transaction
  redo_stack : List Transaction
  group_interval : Nat
deriving DecidableEq

/-- `DEFAULT_GROUP_INTERVAL_MS`. -/
def DEFAULT_GROUP_INTERVAL_MS : Nat := 300

/-- `TextBuffer::from_text`. -/
def TextBuffer.from_text (cs : List Char) : TextBuffer :=
  { text := cs
    next_transaction_id := 0
    undo_stack := []
    redo_stack := []
    group_interval := DEFAULT_GROUP_INTERVAL_MS }

/-- `TextBuffer::insert` records the operation in the transaction context
then inserts; the context's operation list is passed explicitly. -/
def TextBuffer.insert (buf : TextBuffer) (ops : List TextOperation)
    (offset : Nat) (t : List Char) : TextBuffer × List TextOperation :=
  ({ buf with text := ropeInsert buf.text offset t },
   ops ++ [{ range := (offset, offset), before := [], after := t }])

/-- `TextBuffer::remove` records the removed slice then removes it. -/
def TextBuffer.remove (buf : TextBuffer) (ops : List TextOperation)
    (r : Nat × Nat) : TextBuffer × List TextOperation :=
  ({ buf with text := ropeRemove buf.text r },
   ops ++ [{ range := r, before := slice_to_string buf.text r, after := [] }])

/-- `TextBuffer::replace` is remove-then-insert, recording two operations. -/
def TextBuffer.replace (buf : TextBuffer) (ops : List TextOperation)
    (r : Nat × Nat) (t : List Char) : TextBuffer × List TextOperation :=
  let (buf', ops') := buf.remove ops r
  buf'.insert ops' r.1 t

/-- `TextBuffer::commit_transaction`: allocate the next id, then either
merge into the last undo transaction (when one exists, the grouping
window is non-zero, and `now` is within the window of its timestamp) or
push a fresh transaction; both paths clear the redo stack. -/
def TextBuffer.commit_transaction (buf : TextBuffer)
    (operations : List TextOperation) (now : Nat) : TextBuffer × Nat :=
  let transaction_id := buf.next_transaction_id
  let buf := { buf with next_transaction_id := transaction_id + 1 }
  match buf.undo_stack with
  | last :: rest =>
    if buf.group_interval ≠ 0 ∧ now - last.timestamp < buf.group_interval then
      ({ buf with
          undo_stack := { last with
                          operations := last.operations ++ operations
                          timestamp := now } :: rest
          redo_stack := [] },
       last.id)
    else
      ({ buf with
          undo_stack := { id := transaction_id, timestamp := now,
                          operations := operations } :: last :: rest
          redo_stack := [] },
       transaction_id)
  | [] =>
    ({ buf with
        undo_stack := [{ id := transaction_id, timestamp := now,
                         operations := operations }]
        redo_stack := [] },
     transaction_id)

/-- The body of a transaction closure: each mutation goes through the
recording context, so a closure is modelled as the list of buffer calls
it makes. -/
inductive EditCmd where
  | insert (offset : Nat) (text : List Char)
  | remove (range : Nat × Nat)
  | replace (range : Nat × Nat) (text : List Char)
deriving DecidableEq

/-- Run the closure body, threading the buffer and the recorded
operations. -/
def TextBuffer.runEdits (buf : TextBuffer) (cmds : List EditCmd) :
    TextBuffer × List TextOperation :=
  cmds.foldl
    (fun st c =>
      match c with
      | .insert off t => st.1.insert st.2 off t
      | .remove r => st.1.remove st.2 r
      | .replace r t => st.1.replace st.2 r t)
    (buf, [])

/-- `TextBuffer::transaction`: run the closure, then commit when it
recorded at least one operation; otherwise return the pre-existing next
id unchanged. -/
def TextBuffer.transaction (buf : TextBuffer) (now : Nat)
    (cmds : List EditCmd) : TextBuffer × Nat :=
  let transaction_id := buf.next_transaction_id
  let (buf', ops) := buf.runEdits cmds
  if ops ≠ [] then buf'.commit_transaction ops now
  else (buf', transaction_id)

/-- `TextBuffer::exec_operation`: apply one operation to the rope,
dispatching on emptiness of `before`/`after`. -/
def exec_operation (text : List Char) (op : TextOperation) : List Char :=
  if op.before = [] ∧ op.after ≠ [] then
    ropeInsert text op.range.1 op.after
  else if op.before ≠ [] ∧ op.after = [] then
    ropeRemove text op.range
  else if op.before ≠ [] ∧ op.after ≠ [] then
    ropeInsert (ropeRemove text op.range) op.range.1 op.after
  else
    text

/-- `TextBuffer::undo`: pop the last transaction, replay its operations
inverted and in reverse order, move it to the redo stack. -/
def TextBuffer.undo (buf : TextBuffer) : TextBuffer × Option Nat :=
  match buf.undo_stack with
  | [] => (buf, none)
  | tx :: rest =>
    let text := tx.operations.reverse.foldl
      (fun t op => exec_operation t op.undo) buf.text
    ({ buf with text := text, undo_stack := rest,
                redo_stack := tx :: buf.redo_stack },
     some tx.id)

/-- `TextBuffer::redo`: pop the last redo transaction, replay its
operations in forward order, move it back to the undo stack. -/
def TextBuffer.redo (buf : TextBuffer) : TextBuffer × Option Nat :=
  match buf.redo_stack with
  | [] => (buf, none)
  | tx :: rest =>
    let text := tx.operations.foldl
      (fun t op => exec_operation t op) buf.text
    ({ buf with text := text, redo_stack := rest,
                undo_stack := tx :: buf.undo_stack },
     some tx.id)

/-! ### Boundary resolver (crates/editor/src/boundaries.rs) -/

/-- `previous_boundary`: move back one character; only the lower end is
clamped (the document is not consulted). -/
def previous_boundary (offset : Nat) : Nat :=
  if offset = 0 then 0 else offset - 1

/-- `next_boundary`: move forward one character, clamped to the document
length. -/
def next_boundary (doc_len offset : Nat) : Nat :=
  if doc_len ≤ offset then doc_len else min (offset + 1) doc_len

/-! ### Word boundaries (crates/editor/src/boundaries.rs)

`previous_word_boundary` segments a slice with
`unicode_segmentation::split_word_bound_indices` (UAX #29) and walks the
segments with byte indices.  The model below covers ASCII text, where
byte indices and character indices coincide and UAX #29 word bounds are:
maximal runs of alphanumerics and `'_'` (ExtendNumLet joins), maximal
runs of the space character (WSegSpace), and every other character as a
segment of its own. -/

/-- ASCII word constituent under UAX #29: alphanumeric or `'_'`. -/
def isWordChar (c : Char) : Bool := c.isAlphanum || c = '_'

/-- Two adjacent ASCII characters belong to the same UAX #29 word-bound
segment exactly when both are word constituents or both are spaces. -/
def sameSegment (c d : Char) : Bool :=
  (isWordChar c && isWordChar d) || (c = ' ' && d = ' ')

/-- Model of `split_word_bound_indices` restricted to ASCII: maximal
runs of adjacent same-segment characters, i.e. alphanumeric/underscore
runs, space runs, and every other character alone. -/
def wordSegments (slice : List Char) : List (List Char) :=
  slice.splitBy sameSegment

/-- Attach the starting index of each segment
(`split_word_bound_indices` yields `(byte_index, segment)` pairs). -/
def withStartIndices : List (List Char) → Nat → List (Nat × List Char)
  | [], _ => []
  | s :: rest, i => (i, s) :: withStartIndices rest (i + s.length)

/-- The `(idx, segment)` stream of `slice.split_word_bound_indices()`. -/
def indexedSegments (slice : List Char) : List (Nat × List Char) :=
  withStartIndices (wordSegments slice) 0

/-- The last `'\n'` position strictly before `rel` (the first scanning
loop of `previous_word_boundary`). -/
def lastNewlineBefore (slice : List Char) (rel : Nat) : Option Nat :=
  slice.enum.foldl
    (fun acc p => if p.2 = '\n' ∧ p.1 < rel then some p.1 else acc) none

/-- First non-whitespace position in `slice[lineStart..checkEnd]`,
reported as an absolute index (the second scanning loop). -/
def firstNonSpaceOnLine (slice : List Char) (lineStart checkEnd : Nat) :
    Option Nat :=
  (((slice.take checkEnd).drop lineStart).enum.find?
      (fun p => !p.2.isWhitespace)).map (fun p => lineStart + p.1)

/-- The segment walk of `previous_word_boundary`: returns an early-return
target (if any) together with the final `last_segment_start` and
`last_segment_on_current_line` values. -/
def pwbWalk (rel lineStart : Nat) :
    List (Nat × List Char) → Nat → Nat → Option Nat × Nat × Nat
  | [], lss, lsl => (none, lss, lsl)
  | (idx, seg) :: rest, lss, lsl =>
    if seg.all (fun c => c.isWhitespace) then
      pwbWalk rel lineStart rest lss lsl
    else
      let lsl := if lineStart ≤ idx ∧ idx < rel then idx else lsl
      if idx = rel then
        pwbWalk rel lineStart rest lss lsl
      else if idx < rel ∧ rel ≤ idx + seg.length then
        (some idx, lss, lsl)
      else
        pwbWalk rel lineStart rest (if idx < rel then idx else lss) lsl

/-- `previous_word_boundary` (ASCII model; `editor.document` supplies the
text). -/
def previous_word_boundary (text : List Char) (offset : Nat) : Nat :=
  if offset = 0 then 0
  else
    let doc_len := text.length
    let start := offset - 1000
    let stop := min (offset + 100) doc_len
    let slice := (text.drop start).take (stop - start)
    let relative_offset := offset - start
    let line_start :=
      match lastNewlineBefore slice relative_offset with
      | some p => p + 1
      | none => 0
    let check_range_end := min (relative_offset + 1) slice.length
    let should_stay_on_line : Bool :=
      match firstNonSpaceOnLine slice line_start check_range_end with
      | some f => decide (line_start < f ∧ relative_offset ≥ f)
      | none => false
    match pwbWalk relative_offset line_start (indexedSegments slice)
        0 line_start with
    | (some r, _, _) => start + r
    | (none, lss, lsl) =>
      if should_stay_on_line ∧ line_start ≤ lsl then start + lsl
      else start + lss

/-! ### Highlight engine -/

/-- The closed `TokenType` enumeration (theme.rs). -/
inductive TokenType where
  | Keyword | KeywordControl
  | Function | FunctionMethod | FunctionSpecial
  | Type | TypeBuiltin | TypeInterface | TypeClass
  | String | StringEscape | StringRegex
  | Number | Boolean
  | Comment | CommentDoc
  | Operator
  | Variable | VariableSpecial | VariableParameter
  | Property
  | Constant | ConstantBuiltin
  | Punctuation | PunctuationBracket | PunctuationDelimiter
  | PunctuationSpecial
  | Attribute | Lifetime | Embedded
deriving DecidableEq

/-- `capture_name_to_token_type` (src/src/syntax.rs): split the capture
name on `'.'`, dispatch on the base and the first modifier; unknown
bases yield `None`. -/
def capture_name_to_token_type (name : String) : Option TokenType :=
  let parts := name.splitOn "."
  let base := parts.headD ""
  let modifier := parts.get? 1
  match base, modifier with
  | "keyword", some "control" => some TokenType.KeywordControl
  | "keyword", _ => some TokenType.Keyword
  | "function", some "method" => some TokenType.FunctionMethod
  | "function", some "special" => some TokenType.FunctionSpecial
  | "function", _ => some TokenType.Function
  | "type", some "builtin" => some TokenType.TypeBuiltin
  | "type", some "interface" => some TokenType.TypeInterface
  | "type", some "class" => some TokenType.TypeClass
  | "type", _ => some TokenType.Type
  | "string", some "escape" => some TokenType.StringEscape
  | "string", some "regex" => some TokenType.StringRegex
  | "string", _ => some TokenType.String
  | "number", _ => some TokenType.Number
  | "boolean", _ => some TokenType.Boolean
  | "comment", some "doc" => some TokenType.CommentDoc
  | "comment", _ => some TokenType.Comment
  | "operator", _ => some TokenType.Operator
  | "variable", some "special" => some TokenType.VariableSpecial
  | "variable", some "parameter" => some TokenType.VariableParameter
  | "variable", _ => some TokenType.Variable
  | "property", _ => some TokenType.Property
  | "constant", some "builtin" => some TokenType.ConstantBuiltin
  | "constant", _ => some TokenType.Constant
  | "punctuation", some "bracket" => some TokenType.PunctuationBracket
  | "punctuation", some "delimiter" => some TokenType.PunctuationDelimiter
  | "punctuation", some "special" => some TokenType.PunctuationSpecial
  | "punctuation", _ => some TokenType.Punctuation
  | "attribute", _ => some TokenType.Attribute
  | "lifetime", _ => some TokenType.Lifetime
  | "embedded", _ => some TokenType.Embedded
  | _, _ => none

/-- The fifteen recognized capture-name bases. -/
def recognizedBases : List String :=
  ["keyword", "function", "type", "string", "number", "boolean",
   "comment", "operator", "variable", "property", "constant",
   "punctuation", "attribute", "lifetime", "embedded"]

/-- `map_highlight_index_to_token_type`
(crates/syntax/src/highlighter.rs): index-based scheme with a final
fallback to `Variable`. -/
def map_highlight_index_to_token_type (idx : Nat) : TokenType :=
  if idx = 0 then TokenType.Keyword
  else if idx = 1 then TokenType.KeywordControl
  else if idx = 2 then TokenType.Function
  else if idx = 3 then TokenType.FunctionMethod
  else if idx = 4 then TokenType.FunctionSpecial
  else if idx = 5 then TokenType.Type
  else if idx = 6 then TokenType.TypeBuiltin
  else if idx = 7 then TokenType.String
  else if idx = 8 then TokenType.StringEscape
  else if idx = 9 then TokenType.Number
  else if idx = 10 then TokenType.Comment
  else if idx = 11 then TokenType.Variable
  else if idx = 12 then TokenType.Property
  else if idx = 13 then TokenType.Constant
  else if idx = 14 then TokenType.Operator
  else if idx = 15 then TokenType.PunctuationBracket
  else if idx = 16 then TokenType.Attribute
  else if idx = 17 then TokenType.Lifetime
  else TokenType.Variable

/-- `HighlightSpan { byte_range, token_type }`. -/
structure HighlightSpan where
  byte_range : Nat × Nat
  token_type : TokenType
deriving DecidableEq

/-- `tree_sitter_highlight::HighlightEvent`. -/
inductive HighlightEvent where
  | source (start stop : Nat)
  | highlightStart (idx : Nat)
  | highlightStop
deriving DecidableEq

/-- The event loop of `SyntaxHighlighter::highlight_text`: fold the event
stream (each event itself fallible) with a highlight stack (top at the
head), emitting a span for every `Source` event under an open highlight;
any event error aborts with `Err`. -/
def processEvents :
    List (Except String HighlightEvent) → List HighlightSpan → List Nat →
    Except String (List HighlightSpan)
  | [], highlights, _ => .ok highlights
  | .error e :: _, _, _ => .error ("Event error: " ++ e)
  | .ok ev :: rest, highlights, highlight_stack =>
    match ev with
    | .source start stop =>
      match highlight_stack with
      | highlight_idx :: _ =>
        processEvents rest
          (highlights ++ [{ byte_range := (start, stop),
                            token_type :=
                              map_highlight_index_to_token_type highlight_idx }])
          highlight_stack
      | [] => processEvents rest highlights highlight_stack
    | .highlightStart idx => processEvents rest highlights (idx :: highlight_stack)
    | .highlightStop => processEvents rest highlights highlight_stack.tail

/-- `SyntaxHighlighter::highlight_text`, with the tokenizer's output
(the `highlight(...)` call, which may itself fail) supplied as input. -/
def highlight_text
    (events : Except String (List (Except String HighlightEvent))) :
    Except String (List HighlightSpan) :=
  match events with
  | .error e => .error ("Highlight failed: " ++ e)
  | .ok evs => processEvents evs [] []

/-- The cache-update step of `Document::schedule_recompute_highlights`:
on `Ok` replace the shared cache wholesale and bump the version; on
`Err` log and clear the cache, leaving the version untouched. -/
def apply_highlight_result (highlights_cache : List HighlightSpan)
    (version : Nat) (result : Except String (List HighlightSpan)) :
    List HighlightSpan × Nat :=
  match result with
  | .ok highlights => (highlights, version + 1)
  | .error _ => ([], version)

/-- `Document::get_highlights_for_line`: `None` when the line does not
exist; otherwise the cached spans that intersect the line, whole and in
cache order, with `None` instead of an empty list. -/
def get_highlights_for_line (highlights : List HighlightSpan)
    (text : List Char) (line_idx : Nat) : Option (List HighlightSpan) :=
  match line_range text line_idx with
  | none => none
  | some lr =>
    let line_highlights := highlights.filter
      (fun h => h.byte_range.1 < lr.2 ∧ h.byte_range.2 > lr.1)
    if line_highlights.isEmpty then none else some line_highlights

/-- The spans of the shared cache that intersect line `line_idx` (the
filter of `get_highlights_for_line`), empty when the line does not
exist. -/
def lineIntersecting (highlights : List HighlightSpan) (text : List Char)
    (line_idx : Nat) : List HighlightSpan :=
  match line_range text line_idx with
  | none => []
  | some lr =>
    highlights.filter (fun h => h.byte_range.1 < lr.2 ∧ h.byte_range.2 > lr.1)

/-! ### Incremental highlighter cache invalidation (src/src/syntax.rs) -/

/-- `str::lines().count()`: the number of lines under Rust's `lines`
iterator — no line for the empty string, and no trailing empty line
after a final `'\n'`. -/
def rustLinesCount (cs : List Char) : Nat :=
  if cs = [] then 0
  else cs.count '\n' + (if cs.getLast? = some '\n' then 0 else 1)

/-- The `start_line` computed by `SyntaxHighlighter::update`:
`lines().count().saturating_sub(1)` of the text prefix ending at the
edit's start byte (byte = character for the ASCII model). -/
def updateStartLine (new_text : List Char) (start_byte : Nat) : Nat :=
  rustLinesCount (new_text.take (min start_byte new_text.length)) - 1

/-- The cache/dirty effect of `SyntaxHighlighter::update`: every line in
`[start_line, total_lines)` is marked dirty and evicted from the
per-line highlight cache; the parse-tree bookkeeping is not modelled.
The `HashMap`/`HashSet` are modelled extensionally as functions. -/
def SyntaxHighlighter.update (cache : Nat → Option (List HighlightSpan))
    (dirty : Nat → Bool) (edit_start_byte : Nat) (new_text : List Char) :
    (Nat → Option (List HighlightSpan)) × (Nat → Bool) × Nat :=
  let total_lines := rustLinesCount new_text
  let start_line := updateStartLine new_text edit_start_byte
  (fun k => if start_line ≤ k ∧ k < total_lines then none else cache k,
   fun k => if start_line ≤ k ∧ k < total_lines then true else dirty k,
   start_line)

/-! ### Line structure lemmas -/

theorem lineToChar_zero (cs : List Char) : lineToChar cs 0 = 0 := by
  cases cs <;> rfl

theorem lenLines_cons (c : Char) (cs : List Char) :
    lenLines (c :: cs) = lenLines cs + (if c = '\n' then 1 else 0) := by
  rcases eq_or_ne c '\n' with h | h
  · simp [lenLines, List.count_cons, beq_iff_eq, h]
    omega
  · simp [lenLines, List.count_cons, beq_iff_eq, h, Ne.symm h]

theorem lineToChar_le_length (cs : List Char) (i : Nat) :
    lineToChar cs i ≤ cs.length := by
  induction cs generalizing i with
  | nil => cases i <;> simp [lineToChar]
  | cons c cs ih =>
    cases i with
    | zero => simp [lineToChar_zero]
    | succ n =>
      simp only [lineToChar, List.length_cons]
      split
      · have := ih n; omega
      · have := ih (n + 1); omega

theorem lineToChar_lt (cs : List Char) (i : Nat) (h : i + 1 < lenLines cs) :
    lineToChar cs i < lineToChar cs (i + 1) := by
  induction cs generalizing i with
  | nil => simp [lenLines] at h
  | cons c cs ih =>
    have hlc := lenLines_cons c cs
    cases i with
    | zero =>
      rw [lineToChar_zero]
      show 0 < lineToChar (c :: cs) 1
      simp only [lineToChar]
      split <;> omega
    | succ n =>
      simp only [lineToChar]
      split <;> rename_i hc
      · have hn : n + 1 < lenLines cs := by
          rw [hlc, if_pos hc] at h; omega
        have := ih n hn; omega
      · have hn : n + 2 < lenLines cs := by
          rw [hlc, if_neg hc] at h; omega
        have := ih (n + 1) hn; omega

theorem line_range_none_iff (cs : List Char) (i : Nat) :
    line_range cs i = none ↔ lenLines cs ≤ i := by
  rw [line_range]
  split <;> rename_i hi <;> simp <;> omega

/-! ### Claim theorems -/

/-- C1: the undo/redo round-trip law fails on the code for multi-byte
text.  Inserting `"é"` (one character, two UTF-8 bytes) at offset 0 of
`"abc"` and undoing leaves `"bc"`, not `"abc"`: `TextOperation::undo`
builds the inverse range from the byte length of the inserted string and
the rope then removes that many characters. -/
theorem c1_undo_multibyte_eval :
    (((TextBuffer.from_text (String.toList "abc")).transaction 0
        [EditCmd.insert 0 (String.toList "é")]).1.text
      = String.toList "éabc") ∧
    ((((TextBuffer.from_text (String.toList "abc")).transaction 0
        [EditCmd.insert 0 (String.toList "é")]).1.undo).1.text
      = String.toList "bc") ∧
    String.toList "bc" ≠ String.toList "abc" := by
  decide

/-- C3 counterexample: a zero-length replace (empty range, empty text)
through `transaction` is *not* free of undo-stack effect: it records two
no-op operations, so a transaction is pushed, the next transaction id is
consumed, and the undo stack grows. -/
theorem c3_counterexample :
    (((TextBuffer.from_text (String.toList "abc")).transaction 0
        [EditCmd.replace (1, 1) []]).1.undo_stack.length = 1) ∧
    (((TextBuffer.from_text (String.toList "abc")).transaction 0
        [EditCmd.replace (1, 1) []]).1.next_transaction_id = 1) ∧
    (TextBuffer.from_text (String.toList "abc")).undo_stack.length = 0 ∧
    (TextBuffer.from_text (String.toList "abc")).next_transaction_id = 0 := by
  decide

/-- C3 amended: a transaction closure that records zero operations
creates no undo step and returns the pre-existing next id with the
buffer unchanged.  A zero-length `replace`, however, records two empty
operations and therefore DOES commit a transaction on every buffer: the
text is left intact, the next id is consumed, and the redo stack is
cleared, while the undo stack either gains the spurious transaction
(when the stack was empty, or outside the grouping window) or has the
two empty operations merged into its last transaction (within a
non-zero grouping window, same id returned).  The empty operations
replay as no-ops — applying one, or its inverse, leaves any text
unchanged — so undoing a stand-alone spurious transaction restores
nothing and leaves the content as it was. -/
theorem c3_zero_length_edits (buf : TextBuffer) (now a : Nat) :
    buf.transaction now [] = (buf, buf.next_transaction_id) ∧
    (buf.transaction now [EditCmd.replace (a, a) []]).1.text = buf.text ∧
    (buf.transaction now [EditCmd.replace (a, a) []]).1.redo_stack = [] ∧
    (buf.transaction now [EditCmd.replace (a, a) []]).1.next_transaction_id =
      buf.next_transaction_id + 1 ∧
    (∀ t : List Char,
        exec_operation t { range := (a, a), before := [], after := [] } = t ∧
        exec_operation t
          (TextOperation.undo
            { range := (a, a), before := [], after := [] }) = t) ∧
    (buf.undo_stack = [] →
        (buf.transaction now [EditCmd.replace (a, a) []]).1.undo_stack =
          [{ id := buf.next_transaction_id, timestamp := now,
             operations := [{ range := (a, a), before := [], after := [] },
                            { range := (a, a), before := [],
                              after := [] }] }] ∧
        (buf.transaction now [EditCmd.replace (a, a) []]).2 =
          buf.next_transaction_id ∧
        ((buf.transaction now [EditCmd.replace (a, a) []]).1.undo).1.text =
          buf.text) ∧
    (∀ last rest, buf.undo_stack = last :: rest →
        buf.group_interval ≠ 0 → now - last.timestamp < buf.group_interval →
        (buf.transaction now [EditCmd.replace (a, a) []]).1.undo_stack =
          { last with
              operations := last.operations ++
                [{ range := (a, a), before := [], after := [] },
                 { range := (a, a), before := [], after := [] }]
              timestamp := now } :: rest ∧
        (buf.transaction now [EditCmd.replace (a, a) []]).2 = last.id) ∧
    (∀ last rest, buf.undo_stack = last :: rest →
        ¬ (buf.group_interval ≠ 0 ∧
            now - last.timestamp < buf.group_interval) →
        (buf.transaction now [EditCmd.replace (a, a) []]).1.undo_stack =
          { id := buf.next_transaction_id, timestamp := now,
            operations := [{ range := (a, a), before := [], after := [] },
                           { range := (a, a), before := [],
                             after := [] }] } :: last :: rest ∧
        (buf.transaction now [EditCmd.replace (a, a) []]).2 =
          buf.next_transaction_id) := by
  have hsl : slice_to_string buf.text (a, a) = [] := by
    have hlen := buf.text.length_take_le a
    simp only [slice_to_string, List.drop_eq_nil_iff]
    omega
  have htx : ropeInsert (ropeRemove buf.text (a, a)) a [] = buf.text := by
    simp [ropeInsert, ropeRemove, List.take_append_drop]
  have hstep : buf.transaction now [EditCmd.replace (a, a) []] =
      buf.commit_transaction
        [{ range := (a, a), before := [], after := [] },
         { range := (a, a), before := [], after := [] }] now := by
    simp only [TextBuffer.transaction, TextBuffer.runEdits, List.foldl,
      TextBuffer.replace, TextBuffer.remove, TextBuffer.insert, hsl, htx]
    simp
  have hexec : ∀ t : List Char,
      exec_operation t { range := (a, a), before := [], after := [] } = t ∧
      exec_operation t
        (TextOperation.undo
          { range := (a, a), before := [], after := [] }) = t := by
    intro t
    constructor <;> simp [exec_operation, TextOperation.undo, utf8Len]
  refine ⟨rfl, ?_, ?_, ?_, hexec, ?_, ?_, ?_⟩
  · rw [hstep, TextBuffer.commit_transaction]
    cases hu : buf.undo_stack with
    | nil => simp only [hu]
    | cons last rest => simp only [hu]; split <;> rfl
  · rw [hstep, TextBuffer.commit_transaction]
    cases hu : buf.undo_stack with
    | nil => simp only [hu]
    | cons last rest => simp only [hu]; split <;> rfl
  · rw [hstep, TextBuffer.commit_transaction]
    cases hu : buf.undo_stack with
    | nil => simp only [hu]
    | cons last rest => simp only [hu]; split <;> rfl
  · intro hu
    have hexec2 : ∀ t : List Char,
        exec_operation t
          (TextOperation.undo
            { range := (a, a), before := [], after := [] }) = t :=
      fun t => (hexec t).2
    rw [hstep, TextBuffer.commit_transaction]
    simp only [hu]
    refine ⟨by trivial, by trivial, ?_⟩
    rw [TextBuffer.undo]
    simp [hexec2]
  · intro last rest hu hgi hlt
    rw [hstep, TextBuffer.commit_transaction]
    simp only [hu]
    rw [if_pos ⟨hgi, hlt⟩]
    exact ⟨rfl, rfl⟩
  · intro last rest hu hn
    rw [hstep, TextBuffer.commit_transaction]
    simp only [hu]
    rw [if_neg hn]
    exact ⟨rfl, rfl⟩

/-- C4: line ranges partition `[0, len)` contiguously and in increasing
order: whenever line `i+1` exists, `line_range i` and `line_range (i+1)`
are both `some`, adjacent ranges abut, every non-final line is nonempty
(its newline belongs to it), `line_range 0` starts at 0, and the final
line's range ends at the buffer length. -/
theorem c4_line_ranges_partition (cs : List Char) (i : Nat)
    (h : i + 1 < lenLines cs) :
    ∃ r r' r0 rl : Nat × Nat,
      line_range cs i = some r ∧
      line_range cs (i + 1) = some r' ∧
      r.2 = r'.1 ∧ r.1 < r.2 ∧ r'.2 ≤ cs.length ∧
      line_range cs 0 = some r0 ∧ r0.1 = 0 ∧
      line_range cs (lenLines cs - 1) = some rl ∧ rl.2 = cs.length := by
  have h0 : 0 < lenLines cs := by unfold lenLines; omega
  refine ⟨(lineToChar cs i, lineToChar cs (i + 1)),
          (lineToChar cs (i + 1),
           if i + 2 < lenLines cs then lineToChar cs (i + 2) else cs.length),
          (0, if 1 < lenLines cs then lineToChar cs 1 else cs.length),
          (lineToChar cs (lenLines cs - 1), cs.length),
          ?_, ?_, rfl, ?_, ?_, ?_, rfl, ?_, rfl⟩
  · rw [line_range, if_pos (by omega), if_pos h]
  · rw [line_range, if_pos h]
  · exact lineToChar_lt cs i h
  · dsimp only
    split
    · exact lineToChar_le_length cs (i + 2)
    · exact le_refl _
  · rw [line_range, if_pos h0, lineToChar_zero]
  · rw [line_range, if_pos (by omega), if_neg (by omega)]

/-- C4 witness: the partition property at the two-line buffer
`"ab\ncd"` and `i = 0`. -/
theorem c4_witness :
    0 + 1 < lenLines (String.toList "ab\ncd") ∧
    (∃ r r' r0 rl : Nat × Nat,
      line_range (String.toList "ab\ncd") 0 = some r ∧
      line_range (String.toList "ab\ncd") (0 + 1) = some r' ∧
      r.2 = r'.1 ∧ r.1 < r.2 ∧ r'.2 ≤ (String.toList "ab\ncd").length ∧
      line_range (String.toList "ab\ncd") 0 = some r0 ∧ r0.1 = 0 ∧
      line_range (String.toList "ab\ncd")
        (lenLines (String.toList "ab\ncd") - 1) = some rl ∧
      rl.2 = (String.toList "ab\ncd").length) :=
  ⟨by decide, c4_line_ranges_partition (String.toList "ab\ncd") 0 (by decide)⟩

/-- C3 witness: the amended statement exercised concretely — the
empty-closure case and the stand-alone spurious transaction (with its
content-preserving undo) on the fresh buffer `"ab"`, the no-op replay
of an empty operation on `"xy"`, and the merge (`now = 150`, window
300, last at 100) and push (`now = 900`) cases on a buffer with
history. -/
theorem c3_witness :
    ((TextBuffer.from_text (String.toList "ab")).transaction 5 [] =
      (TextBuffer.from_text (String.toList "ab"), 0)) ∧
    (exec_operation (String.toList "xy")
        { range := (1, 1), before := [], after := [] } =
      String.toList "xy") ∧
    ((TextBuffer.from_text (String.toList "ab")).undo_stack = [] ∧
     ((TextBuffer.from_text (String.toList "ab")).transaction 5
        [EditCmd.replace (1, 1) []]).1.undo_stack =
      [{ id := 0, timestamp := 5,
         operations := [{ range := (1, 1), before := [], after := [] },
                        { range := (1, 1), before := [], after := [] }] }] ∧
     ((TextBuffer.from_text (String.toList "ab")).transaction 5
        [EditCmd.replace (1, 1) []]).2 = 0 ∧
     (((TextBuffer.from_text (String.toList "ab")).transaction 5
        [EditCmd.replace (1, 1) []]).1.undo).1.text = String.toList "ab") ∧
    (({ text := String.toList "ab", next_transaction_id := 7,
        undo_stack := [{ id := 3, timestamp := 100, operations := [] }],
        redo_stack := [{ id := 1, timestamp := 2, operations := [] }],
        group_interval := 300 } : TextBuffer).transaction 150
        [EditCmd.replace (1, 1) []]).1.undo_stack =
      [{ id := 3, timestamp := 150,
         operations := [{ range := (1, 1), before := [], after := [] },
                        { range := (1, 1), before := [], after := [] }] }] ∧
    (({ text := String.toList "ab", next_transaction_id := 7,
        undo_stack := [{ id := 3, timestamp := 100, operations := [] }],
        redo_stack := [{ id := 1, timestamp := 2, operations := [] }],
        group_interval := 300 } : TextBuffer).transaction 150
        [EditCmd.replace (1, 1) []]).2 = 3 ∧
    (({ text := String.toList "ab", next_transaction_id := 7,
        undo_stack := [{ id := 3, timestamp := 100, operations := [] }],
        redo_stack := [{ id := 1, timestamp := 2, operations := [] }],
        group_interval := 300 } : TextBuffer).transaction 900
        [EditCmd.replace (1, 1) []]).1.undo_stack =
      [{ id := 7, timestamp := 900,
         operations := [{ range := (1, 1), before := [], after := [] },
                        { range := (1, 1), before := [], after := [] }] },
       { id := 3, timestamp := 100, operations := [] }] ∧
    (({ text := String.toList "ab", next_transaction_id := 7,
        undo_stack := [{ id := 3, timestamp := 100, operations := [] }],
        redo_stack := [{ id := 1, timestamp := 2, operations := [] }],
        group_interval := 300 } : TextBuffer).transaction 900
        [EditCmd.replace (1, 1) []]).2 = 7 :=
  ⟨(c3_zero_length_edits (TextBuffer.from_text (String.toList "ab")) 5 1).1,
   ((c3_zero_length_edits (TextBuffer.from_text (String.toList "ab"))
      5 1).2.2.2.2.1 (String.toList "xy")).1,
   ⟨rfl,
    (c3_zero_length_edits (TextBuffer.from_text (String.toList "ab"))
      5 1).2.2.2.2.2.1 rfl⟩,
   ((c3_zero_length_edits
      { text := String.toList "ab", next_transaction_id := 7,
        undo_stack := [{ id := 3, timestamp := 100, operations := [] }],
        redo_stack := [{ id := 1, timestamp := 2, operations := [] }],
        group_interval := 300 } 150 1).2.2.2.2.2.2.1
      { id := 3, timestamp := 100, operations := [] } [] rfl
      (by decide) (by decide)).1,
   ((c3_zero_length_edits
      { text := String.toList "ab", next_transaction_id := 7,
        undo_stack := [{ id := 3, timestamp := 100, operations := [] }],
        redo_stack := [{ id := 1, timestamp := 2, operations := [] }],
        group_interval := 300 } 150 1).2.2.2.2.2.2.1
      { id := 3, timestamp := 100, operations := [] } [] rfl
      (by decide) (by decide)).2,
   ((c3_zero_length_edits
      { text := String.toList "ab", next_transaction_id := 7,
        undo_stack := [{ id := 3, timestamp := 100, operations := [] }],
        redo_stack := [{ id := 1, timestamp := 2, operations := [] }],
        group_interval := 300 } 900 1).2.2.2.2.2.2.2
      { id := 3, timestamp := 100, operations := [] } [] rfl
      (by decide)).1,
   ((c3_zero_length_edits
      { text := String.toList "ab", next_transaction_id := 7,
        undo_stack := [{ id := 3, timestamp := 100, operations := [] }],
        redo_stack := [{ id := 1, timestamp := 2, operations := [] }],
        group_interval := 300 } 900 1).2.2.2.2.2.2.2
      { id := 3, timestamp := 100, operations := [] } [] rfl
      (by decide)).2⟩

/-- C5 counterexample: `previous_boundary` clamps only at 0.  For the
five-character document `"hello"` and input offset 100 it returns 99,
which is not within `[0, 5]`, contradicting "clamped to [0, len] for
every input offset". -/
theorem c5_counterexample :
    (String.toList "hello").length = 5 ∧
    previous_boundary 100 = 99 ∧
    ¬ previous_boundary 100 ≤ (String.toList "hello").length := by
  decide

/-- C5 amended: `line_range`/`line_content` return `none` for a line
index past the last line; `next_boundary` is clamped to `[0, len]` for
every offset; `previous_boundary` only steps back one position (so it
stays within `[0, len]` exactly when `offset ≤ len + 1`); and
`char_to_line`/`line_to_char` return a value for in-range arguments
(beyond them the underlying rope panics, modelled as `none`). -/
theorem c5_read_side_queries (cs : List Char) (i off : Nat) :
    (lenLines cs ≤ i → line_range cs i = none) ∧
    (lenLines cs ≤ i → line_content cs i = none) ∧
    next_boundary cs.length off ≤ cs.length ∧
    previous_boundary off ≤ off ∧
    (off ≤ cs.length + 1 → previous_boundary off ≤ cs.length) ∧
    (off ≤ cs.length → (charToLine cs off).isSome = true) ∧
    (i ≤ lenLines cs → (lineToCharChecked cs i).isSome = true) := by
  refine ⟨?_, ?_, ?_, ?_, ?_, ?_, ?_⟩
  · intro hge; rw [line_range, if_neg (by omega)]
  · intro hge; rw [line_content, if_neg (by omega)]
  · rw [next_boundary]
    split
    · exact le_refl _
    · exact min_le_right _ _
  · rw [previous_boundary]
    split <;> omega
  · intro hle
    rw [previous_boundary]
    split <;> omega
  · intro hle
    rw [charToLine, if_pos hle]
    rfl
  · intro hle
    rw [lineToCharChecked, if_pos hle]
    rfl

/-- C5 witness: the amended statement at `['a']` with an out-of-range
line index and offsets 2 (for the boundary bounds) and 1 (for
`char_to_line` at the buffer end). -/
theorem c5_witness :
    line_range ['a'] 5 = none ∧
    line_content ['a'] 5 = none ∧
    next_boundary 1 2 ≤ 1 ∧
    previous_boundary 2 ≤ 2 ∧
    previous_boundary 2 ≤ 1 ∧
    (charToLine ['a'] 1).isSome = true ∧
    (lineToCharChecked ['a'] 1).isSome = true :=
  ⟨(c5_read_side_queries ['a'] 5 2).1 (by decide),
   (c5_read_side_queries ['a'] 5 2).2.1 (by decide),
   (c5_read_side_queries ['a'] 5 2).2.2.1,
   (c5_read_side_queries ['a'] 5 2).2.2.2.1,
   (c5_read_side_queries ['a'] 5 2).2.2.2.2.1 (by decide),
   (c5_read_side_queries ['a'] 1 1).2.2.2.2.2.1 (by decide),
   (c5_read_side_queries ['a'] 1 1).2.2.2.2.2.2 (by decide)⟩

/-- C6: on `"    Red,\n    Green,"` (character offsets: indentation of
the second line starts at 9, `"Green"` spans 13–18, the previous line's
trailing `','` sits at 7), `previous_word_boundary` returns 13 from any
offset strictly inside `"Green"`, returns 9 (the indentation start, not
a previous-line position) from exactly 13, and returns 7 (the previous
line's trailing token) from exactly 9. -/
theorem c6_previous_word_boundary_indentation :
    previous_word_boundary (String.toList "    Red,\n    Green,") 14 = 13 ∧
    previous_word_boundary (String.toList "    Red,\n    Green,") 15 = 13 ∧
    previous_word_boundary (String.toList "    Red,\n    Green,") 16 = 13 ∧
    previous_word_boundary (String.toList "    Red,\n    Green,") 17 = 13 ∧
    previous_word_boundary (String.toList "    Red,\n    Green,") 13 = 9 ∧
    previous_word_boundary (String.toList "    Red,\n    Green,") 9 = 7 := by
  decide

/-- C2: with a non-zero grouping window `W`, committing a (non-empty)
operation list at time `now` merges into the last undo transaction
exactly when the undo stack is non-empty and `now - last.timestamp < W`
(appending the operations, bumping the timestamp to `now`, returning the
same id, clearing the redo stack); otherwise a fresh transaction is
pushed.  Consequently two single-insert edits at times `t` and `t + Δ`
from a history-free buffer produce one undo step when `Δ < W` and two
when `Δ ≥ W`. -/
theorem c2_transaction_grouping (buf : TextBuffer)
    (ops : List TextOperation) (now : Nat)
    (hW : buf.group_interval ≠ 0) (hops : ops ≠ []) :
    (∀ last rest, buf.undo_stack = last :: rest →
        now - last.timestamp < buf.group_interval →
        buf.commit_transaction ops now =
          ({ buf with
              next_transaction_id := buf.next_transaction_id + 1
              undo_stack := { last with
                              operations := last.operations ++ ops
                              timestamp := now } :: rest
              redo_stack := [] },
           last.id)) ∧
    (∀ last rest, buf.undo_stack = last :: rest →
        buf.group_interval ≤ now - last.timestamp →
        buf.commit_transaction ops now =
          ({ buf with
              next_transaction_id := buf.next_transaction_id + 1
              undo_stack := { id := buf.next_transaction_id,
                              timestamp := now,
                              operations := ops } :: last :: rest
              redo_stack := [] },
           buf.next_transaction_id)) ∧
    (buf.undo_stack = [] →
        buf.commit_transaction ops now =
          ({ buf with
              next_transaction_id := buf.next_transaction_id + 1
              undo_stack := [{ id := buf.next_transaction_id,
                               timestamp := now,
                               operations := ops }]
              redo_stack := [] },
           buf.next_transaction_id)) ∧
    (∀ t Δ off₁ s₁ off₂ s₂,
        let b0 : TextBuffer := { buf with undo_stack := [], redo_stack := [] }
        let r1 := b0.transaction t [EditCmd.insert off₁ s₁]
        let r2 := r1.1.transaction (t + Δ) [EditCmd.insert off₂ s₂]
        (Δ < buf.group_interval →
          r2.1.undo_stack.length = 1 ∧ r2.2 = r1.2) ∧
        (buf.group_interval ≤ Δ →
          r2.1.undo_stack.length = 2 ∧ r2.2 ≠ r1.2)) := by
  refine ⟨?_, ?_, ?_, ?_⟩
  · intro last rest hstack hin
    rw [TextBuffer.commit_transaction]
    simp only [hstack]
    rw [if_pos ⟨hW, hin⟩]
  · intro last rest hstack hout
    rw [TextBuffer.commit_transaction]
    simp only [hstack]
    rw [if_neg (by omega)]
  · intro hstack
    rw [TextBuffer.commit_transaction]
    simp only [hstack]
  · intro t Δ off₁ s₁ off₂ s₂
    simp only [TextBuffer.transaction, TextBuffer.runEdits, List.foldl,
      TextBuffer.insert, TextBuffer.commit_transaction, List.append_nil,
      List.nil_append, ne_eq, List.cons_ne_self, not_false_eq_true,
      if_true, reduceIte]
    constructor
    · intro hin
      rw [if_pos ⟨hW, by omega⟩]
      simp
    · intro hout
      rw [if_neg (by omega)]
      simp

/-- C2 witness: grouping at a concrete buffer (window 300, last
transaction at time 100): a commit at 150 merges into transaction 3,
a commit at 900 pushes a fresh transaction, and the two-edit scenario
yields one undo step for `Δ = 10` and two for `Δ = 300`. -/
theorem c2_witness :
    ((300 : Nat) ≠ 0 ∧
      ([{ range := (0, 0), before := [], after := ['x'] }] :
        List TextOperation) ≠ []) ∧
    (TextBuffer.commit_transaction
        { text := [], next_transaction_id := 7,
          undo_stack := [{ id := 3, timestamp := 100, operations := [] }],
          redo_stack := [{ id := 1, timestamp := 2, operations := [] }],
          group_interval := 300 }
        [{ range := (0, 0), before := [], after := ['x'] }] 150 =
      ({ text := [], next_transaction_id := 8,
         undo_stack := [{ id := 3, timestamp := 150,
                          operations := [{ range := (0, 0), before := [],
                                           after := ['x'] }] }],
         redo_stack := [], group_interval := 300 }, 3)) ∧
    (TextBuffer.commit_transaction
        { text := [], next_transaction_id := 7,
          undo_stack := [{ id := 3, timestamp := 100, operations := [] }],
          redo_stack := [{ id := 1, timestamp := 2, operations := [] }],
          group_interval := 300 }
        [{ range := (0, 0), before := [], after := ['x'] }] 900 =
      ({ text := [], next_transaction_id := 8,
         undo_stack := [{ id := 7, timestamp := 900,
                          operations := [{ range := (0, 0), before := [],
                                           after := ['x'] }] },
                        { id := 3, timestamp := 100, operations := [] }],
         redo_stack := [], group_interval := 300 }, 7)) ∧
    (((({ text := [], next_transaction_id := 7, undo_stack := [],
          redo_stack := [], group_interval := 300 } :
            TextBuffer).transaction 0
          [EditCmd.insert 0 ['a']]).1.transaction (0 + 10)
          [EditCmd.insert 1 ['b']]).1.undo_stack.length = 1) ∧
    (((({ text := [], next_transaction_id := 7, undo_stack := [],
          redo_stack := [], group_interval := 300 } :
            TextBuffer).transaction 0
          [EditCmd.insert 0 ['a']]).1.transaction (0 + 300)
          [EditCmd.insert 1 ['b']]).1.undo_stack.length = 2) :=
  ⟨⟨by decide, by decide⟩,
   (c2_transaction_grouping
      { text := [], next_transaction_id := 7,
        undo_stack := [{ id := 3, timestamp := 100, operations := [] }],
        redo_stack := [{ id := 1, timestamp := 2, operations := [] }],
        group_interval := 300 }
      [{ range := (0, 0), before := [], after := ['x'] }] 150
      (by decide) (by decide)).1
     { id := 3, timestamp := 100, operations := [] } [] rfl (by decide),
   (c2_transaction_grouping
      { text := [], next_transaction_id := 7,
        undo_stack := [{ id := 3, timestamp := 100, operations := [] }],
        redo_stack := [{ id := 1, timestamp := 2, operations := [] }],
        group_interval := 300 }
      [{ range := (0, 0), before := [], after := ['x'] }] 900
      (by decide) (by decide)).2.1
     { id := 3, timestamp := 100, operations := [] } [] rfl (by decide),
   (((c2_transaction_grouping
      { text := [], next_transaction_id := 7,
        undo_stack := [{ id := 3, timestamp := 100, operations := [] }],
        redo_stack := [{ id := 1, timestamp := 2, operations := [] }],
        group_interval := 300 }
      [{ range := (0, 0), before := [], after := ['x'] }] 150
      (by decide) (by decide)).2.2.2 0 10 0 ['a'] 1 ['b']).1
      (by decide)).1,
   (((c2_transaction_grouping
      { text := [], next_transaction_id := 7,
        undo_stack := [{ id := 3, timestamp := 100, operations := [] }],
        redo_stack := [{ id := 1, timestamp := 2, operations := [] }],
        group_interval := 300 }
      [{ range := (0, 0), before := [], after := ['x'] }] 150
      (by decide) (by decide)).2.2.2 0 300 0 ['a'] 1 ['b']).2
      (by decide)).1⟩

/-- C7: `capture_name_to_token_type` is total and rejecting — it returns
`some` exactly when the part of the name before the first `'.'` is one
of the fifteen recognized bases, and `none` otherwise; the index-based
`map_highlight_index_to_token_type` maps every index outside `0..=17`
to its fallback `Variable`. -/
theorem c7_capture_name_mapping :
    (∀ name : String,
        (capture_name_to_token_type name).isSome = true ↔
          ((name.splitOn ".").headD "") ∈ recognizedBases) ∧
    (∀ idx : Nat, 18 ≤ idx →
        map_highlight_index_to_token_type idx = TokenType.Variable) := by
  constructor
  · intro name
    rw [capture_name_to_token_type]
    generalize ((name.splitOn ".").headD "") = base
    generalize (name.splitOn ".").get? 1 = modifier
    split <;> simp_all [recognizedBases]
  · intro idx h
    unfold map_highlight_index_to_token_type
    repeat rw [if_neg (by omega)]

/-- C7 witness: index 999 falls back to `Variable`, and the recognized
name `"function.method"` maps to `some`. -/
theorem c7_witness :
    18 ≤ 999 ∧
    map_highlight_index_to_token_type 999 = TokenType.Variable ∧
    ((capture_name_to_token_type "function.method").isSome = true ↔
      (("function.method".splitOn ".").headD "") ∈ recognizedBases) :=
  ⟨by decide, c7_capture_name_mapping.2 999 (by decide),
   c7_capture_name_mapping.1 "function.method"⟩

/-- C8: the outcome handling of `schedule_recompute_highlights` is
non-fatal in both directions: a failed highlight result clears the
shared cache and leaves the version untouched, while a successful one
replaces the cache wholesale and increments the version. -/
theorem c8_highlight_failure_nonfatal (cache : List HighlightSpan)
    (version : Nat)
    (events : Except String (List (Except String HighlightEvent))) :
    ((highlight_text events).isOk = false →
        apply_highlight_result cache version (highlight_text events) =
          ([], version)) ∧
    (∀ hs, highlight_text events = .ok hs →
        apply_highlight_result cache version (highlight_text events) =
          (hs, version + 1)) := by
  constructor
  · intro h
    cases hres : highlight_text events with
    | error e => rfl
    | ok hs => rw [hres] at h; simp [Except.isOk, Except.toBool] at h
  · intro hs h
    rw [h]
    rfl

/-- C8 witness: a failed tokenizer run and a failed event both clear a
non-empty cache without touching the version; a successful run replaces
the cache with the produced spans and bumps the version. -/
theorem c8_witness :
    (highlight_text (Except.error "boom")).isOk = false ∧
    apply_highlight_result [{ byte_range := (0, 1),
                              token_type := TokenType.Comment }] 5
        (highlight_text (Except.error "boom")) = ([], 5) ∧
    apply_highlight_result [{ byte_range := (0, 1),
                              token_type := TokenType.Comment }] 5
        (highlight_text (Except.ok [Except.error "ev"])) = ([], 5) ∧
    highlight_text (Except.ok
        [Except.ok (HighlightEvent.highlightStart 0),
         Except.ok (HighlightEvent.source 0 2),
         Except.ok HighlightEvent.highlightStop]) =
      Except.ok [{ byte_range := (0, 2), token_type := TokenType.Keyword }] ∧
    apply_highlight_result [] 5
        (highlight_text (Except.ok
          [Except.ok (HighlightEvent.highlightStart 0),
           Except.ok (HighlightEvent.source 0 2),
           Except.ok HighlightEvent.highlightStop])) =
      ([{ byte_range := (0, 2), token_type := TokenType.Keyword }], 6) :=
  ⟨by decide,
   (c8_highlight_failure_nonfatal _ 5 (Except.error "boom")).1 (by decide),
   (c8_highlight_failure_nonfatal _ 5
      (Except.ok [Except.error "ev"])).1 (by decide),
   by rfl,
   (c8_highlight_failure_nonfatal [] 5 _).2
     [{ byte_range := (0, 2), token_type := TokenType.Keyword }] (by rfl)⟩

/-- C9 counterexample: an edit whose start byte sits exactly at the
start of line 1 (byte 3 of `"ab\ncd\nef"`, which `char_to_line` places
on line 1) nevertheless evicts the line-0 cache entry, because
`update` computes the start line as `lines().count() - 1` of the
prefix, which is 0 when the prefix ends in a newline. -/
theorem c9_counterexample :
    charToLine (String.toList "ab\ncd\nef") 3 = some 1 ∧
    (SyntaxHighlighter.update
        (fun _ => some ([] : List HighlightSpan)) (fun _ => false) 3
        (String.toList "ab\ncd\nef")).1 0 = none ∧
    (SyntaxHighlighter.update
        (fun _ => some ([] : List HighlightSpan)) (fun _ => false) 3
        (String.toList "ab\ncd\nef")).2.2 = 0 := by
  decide

/-- C9 amended: `update` evicts and dirties exactly the cache entries in
`[start_line, lines().count())`, where `start_line` is
`lines().count().saturating_sub(1)` of the prefix before the edit — the
edit's true start line when the edit begins mid-line (prefix not ending
in a newline), one line earlier when it begins exactly at a line start.
Entries below `start_line` (and entries at or past the new line count)
keep exactly their previous values. -/
theorem c9_cache_invalidation (cache : Nat → Option (List HighlightSpan))
    (dirty : Nat → Bool) (sb : Nat) (text : List Char) (k : Nat) :
    let st := SyntaxHighlighter.update cache dirty sb text
    (k < st.2.2 → st.1 k = cache k ∧ st.2.1 k = dirty k) ∧
    (rustLinesCount text ≤ k → st.1 k = cache k ∧ st.2.1 k = dirty k) ∧
    (st.2.2 ≤ k → k < rustLinesCount text →
        st.1 k = none ∧ st.2.1 k = true) ∧
    ((text.take (min sb text.length)).getLast? ≠ some '\n' →
        st.2.2 = (text.take (min sb text.length)).count '\n') := by
  refine ⟨?_, ?_, ?_, ?_⟩
  · intro hk
    constructor <;>
      · show (if _ ∧ _ then _ else _) = _
        rw [if_neg (by simp only [SyntaxHighlighter.update] at hk; omega)]
  · intro hk
    constructor <;>
      · show (if _ ∧ _ then _ else _) = _
        rw [if_neg (by omega)]
  · intro h1 h2
    constructor <;>
      · show (if _ ∧ _ then _ else _) = _
        rw [if_pos ⟨by simpa [SyntaxHighlighter.update] using h1, h2⟩]
  · intro h
    show updateStartLine text sb = _
    have hc : rustLinesCount (text.take (min sb text.length)) =
        (text.take (min sb text.length)).count '\n' +
          (if text.take (min sb text.length) = [] then 0 else 1) := by
      unfold rustLinesCount
      split
      · rename_i hp
        simp [hp]
      · rename_i hne
        simp [h, hne]
    unfold updateStartLine
    rw [hc]
    split
    · rename_i hp
      simp [hp]
    · omega

/-- C9 witness: editing strictly inside line 1 of the 3-line document
`"ab\ncd\nef"` (start byte 4) keeps the line-0 cache entry and evicts
line 1. -/
theorem c9_witness :
    ((SyntaxHighlighter.update
        (fun _ => some ([] : List HighlightSpan)) (fun _ => false) 4
        (String.toList "ab\ncd\nef")).1 0 = some [] ∧
     (SyntaxHighlighter.update
        (fun _ => some ([] : List HighlightSpan)) (fun _ => false) 4
        (String.toList "ab\ncd\nef")).2.1 0 = false) ∧
    ((SyntaxHighlighter.update
        (fun _ => some ([] : List HighlightSpan)) (fun _ => false) 4
        (String.toList "ab\ncd\nef")).1 1 = none ∧
     (SyntaxHighlighter.update
        (fun _ => some ([] : List HighlightSpan)) (fun _ => false) 4
        (String.toList "ab\ncd\nef")).2.1 1 = true) ∧
    (SyntaxHighlighter.update
        (fun _ => some ([] : List HighlightSpan)) (fun _ => false) 4
        (String.toList "ab\ncd\nef")).2.2 = 1 :=
  ⟨(c9_cache_invalidation (fun _ => some []) (fun _ => false) 4
      (String.toList "ab\ncd\nef") 0).1 (by decide),
   (c9_cache_invalidation (fun _ => some []) (fun _ => false) 4
      (String.toList "ab\ncd\nef") 1).2.2.1 (by decide) (by decide),
   (c9_cache_invalidation (fun _ => some []) (fun _ => false) 4
      (String.toList "ab\ncd\nef") 0).2.2.2 (by decide)⟩

/-- C10: `get_highlights_for_line` returns `none` exactly when the line
index is out of range or no cached span intersects the line, never
returns `some []`, and a `some` result is precisely the cached spans
intersecting the line, whole and in cache order. -/
theorem c10_get_highlights_for_line (highlights : List HighlightSpan)
    (text : List Char) (i : Nat) :
    (get_highlights_for_line highlights text i = none ↔
        lenLines text ≤ i ∨ lineIntersecting highlights text i = []) ∧
    (∀ spans, get_highlights_for_line highlights text i = some spans →
        spans = lineIntersecting highlights text i ∧ spans ≠ []) := by
  constructor
  · rw [get_highlights_for_line, lineIntersecting]
    cases hlr : line_range text i with
    | none =>
      have hge := (line_range_none_iff text i).mp hlr
      simp [hge]
    | some lr =>
      have hni : ¬ lenLines text ≤ i := by
        intro hle
        rw [(line_range_none_iff text i).mpr hle] at hlr
        cases hlr
      simp only [hni, false_or]
      split <;> rename_i hempty <;> simp_all [List.isEmpty_iff]
  · intro spans hspans
    rw [get_highlights_for_line] at hspans
    rw [lineIntersecting]
    cases hlr : line_range text i with
    | none => rw [hlr] at hspans; cases hspans
    | some lr =>
      rw [hlr] at hspans
      simp only [] at hspans
      split at hspans
      · cases hspans
      · rename_i hempty
        cases hspans
        exact ⟨rfl, by simpa [List.isEmpty_iff] using hempty⟩

/-- C10 witness: with one cached span over bytes `[0, 2)` of
`"ab\ncd"`, line 0 (range `[0, 3)`) yields exactly that span, whole. -/
theorem c10_witness :
    get_highlights_for_line
        [{ byte_range := (0, 2), token_type := TokenType.Keyword }]
        (String.toList "ab\ncd") 0 =
      some [{ byte_range := (0, 2), token_type := TokenType.Keyword }] ∧
    ([{ byte_range := (0, 2), token_type := TokenType.Keyword }] :
        List HighlightSpan) =
      lineIntersecting
        [{ byte_range := (0, 2), token_type := TokenType.Keyword }]
        (String.toList "ab\ncd") 0 ∧
    ([{ byte_range := (0, 2), token_type := TokenType.Keyword }] :
        List HighlightSpan) ≠ [] :=
  ⟨by decide,
   (c10_get_highlights_for_line
      [{ byte_range := (0, 2), token_type := TokenType.Keyword }]
      (String.toList "ab\ncd") 0).2
     [{ byte_range := (0, 2), token_type := TokenType.Keyword }]
     (by decide)⟩

end GpuiEditor
